import Mathlib

/- Verification development for `src/gate_calculator.py` (GATE marks calculator).

   The Python source is shallowly embedded below.  Conventions used throughout:
   * Python `float` values are modelled exactly as rationals (`ℚ`); every
     numeric literal appearing in the source (`1.0`, `2.0`, `1e-9`, `/ 3.0`)
     is exactly representable, so the branch structure of the code is
     preserved faithfully.
   * Python strings are Lean `String`s; the regex scans of the source are
     embedded as deterministic character-list scanners.  Each of the regexes
     in the source is backtracking-free on its own alphabet (every greedy
     sub-pattern is followed by a token that cannot overlap it), so a
     deterministic scanner computes exactly the Python match semantics.
     Python `\s` is modelled by the ASCII whitespace class and the
     case-insensitive letter comparisons are ASCII, matching the documents
     the program consumes.
   * A Python `dict` keyed by `int` is modelled as an association list with
     first-occurrence update, which reproduces dict insertion-order and
     overwrite semantics exactly.
   * The one exception raised by `evaluate` (`ValueError`, the spec's
     `InsufficientResponsesError`) is modelled by `Option`: `none` is the
     raised error. -/

/-! ## Character classes and scanning primitives -/

/-- Python `\s` on the ASCII range (space, tab, newline, carriage return,
vertical tab, form feed). -/
def isWs (c : Char) : Bool :=
  c = ' ' || c = '\t' || c = '\n' || c = '\r' || c = '\x0b' || c = '\x0c'

/-- Case-insensitive character comparison (regex `re.IGNORECASE`). -/
def lowEq (a b : Char) : Bool := a.toLower == b.toLower

/-- Match a literal case-insensitively (one regex literal under
`re.IGNORECASE`); returns the remaining input on success. -/
def expectCI : List Char → List Char → Option (List Char)
  | [], l => some l
  | _ :: _, [] => none
  | p :: ps, c :: cs => if lowEq p c then expectCI ps cs else none

/-- Greedy `\s*`. -/
def skipWs (l : List Char) : List Char := l.dropWhile isWs

/-- Numeric value of a digit run (Python `int(...)` on a `\d+` group). -/
def digitsVal (ds : List Char) : ℕ := ds.foldl (fun a c => 10 * a + (c.toNat - 48)) 0

/-- Greedy `(\d+)`: at least one digit, as many as possible. -/
def takeDigits (l : List Char) : Option (ℕ × List Char) :=
  let ds := l.takeWhile (·.isDigit)
  if ds.isEmpty then none else some (digitsVal ds, l.dropWhile (·.isDigit))

/-! ## `normalize_space` (gate_calculator.py lines 45-46)

`re.sub(r"\s+", " ", value).strip()` is the same as splitting on whitespace
runs and rejoining the words with single spaces. -/

/-- Split into maximal non-whitespace runs, discarding the whitespace. -/
def wsWords : List Char → List Char → List (List Char)
  | [], acc => if acc.isEmpty then [] else [acc.reverse]
  | c :: cs, acc =>
    if isWs c then
      if acc.isEmpty then wsWords cs [] else acc.reverse :: wsWords cs []
    else wsWords cs (c :: acc)

/-- `normalize_space` from the source: collapse whitespace runs to single
spaces and strip the ends. -/
def normalize_space (s : String) : String :=
  (List.intercalate [' '] (wsWords s.data [])).asString

/-- Python `str.split(sep)` for a one-character separator: `"".split(";")`
is `[""]`, empty fields are kept. -/
def splitSepAux (sep : Char) : List Char → List Char → List (List Char)
  | [], acc => [acc.reverse]
  | c :: cs, acc =>
    if c = sep then acc.reverse :: splitSepAux sep cs []
    else splitSepAux sep cs (c :: acc)

def pySplit (s : String) (sep : Char) : List String :=
  (splitSepAux sep s.data []).map List.asString

/-- Python `str.strip()`: drop whitespace from both ends. -/
def pyStrip (s : String) : String :=
  (((s.data.dropWhile isWs).reverse.dropWhile isWs).reverse).asString

/-- Python `str.upper()` on the ASCII texts handled here. -/
def pyUpper (s : String) : String := (s.data.map Char.toUpper).asString

/-- Code-point lexicographic `≤` on strings (Python string comparison). -/
def lexLe : List Char → List Char → Bool
  | [], _ => true
  | _ :: _, [] => false
  | a :: as, b :: bs => if a = b then lexLe as bs else decide (a.toNat < b.toNat)

def insStr (x : String) : List String → List String
  | [] => [x]
  | y :: ys => if lexLe y.data x.data then y :: insStr x ys else x :: y :: ys

/-- Python `sorted(...)` on a list of strings. -/
def sortStrings (l : List String) : List String := l.foldl (fun acc x => insStr x acc) []

/-! ## The integer-keyed dict of the source, as an association list

`updD` overwrites the first occurrence of the key in place, else appends;
`lookupD` returns the first binding.  On key-`Nodup` lists (an invariant of
every dict built below) this is observationally Python's `dict`. -/

def updD : List (ℕ × ℚ) → ℕ → ℚ → List (ℕ × ℚ)
  | [], k, v => [(k, v)]
  | p :: rest, k, v => if p.1 = k then (k, v) :: rest else p :: updD rest k v

def lookupD : List (ℕ × ℚ) → ℕ → Option ℚ
  | [], _ => none
  | p :: rest, k => if p.1 = k then some p.2 else lookupD rest k

/-- Python `k in marks`. -/
def containsKeyD (m : List (ℕ × ℚ)) (k : ℕ) : Bool := (lookupD m k).isSome

/-- The key list of a dict (its `len` is the dict's `len`). -/
def keysD (m : List (ℕ × ℚ)) : List ℕ := m.map Prod.fst

/-! ## Answer key extraction (`parse_answer_key`, lines 49-78) -/

structure AnswerKeyEntry where
  q_no : ℕ
  q_type : String
  sectionName : String
  key_raw : String
  deriving Repr, DecidableEq

/-- A pdfplumber cell: possibly `None`. -/
abbrev Cell := Option String

abbrev TableRow := List Cell

abbrev Table := List TableRow

abbrev PdfPage := List Table

/-- Python substring test `needle in hay`. -/
def strContains (hay needle : String) : Bool :=
  hay.data.tails.any (fun t => needle.data.isPrefixOf t)

/-- `normalize_space(cell or "")`. -/
def normCell (c : Cell) : String := normalize_space (c.getD "")

/-- One data row of an accepted table (lines 59-75): needs ≥ 4 cells and an
all-digit first cell; `q_type` is uppercased. -/
def rowEntry (row : TableRow) : Option AnswerKeyEntry :=
  if row.length < 4 then none
  else
    let q_no_txt := normCell (row.getD 0 none)
    let q_type := normCell (row.getD 1 none)
    let sec := normCell (row.getD 2 none)
    let key_raw := normCell (row.getD 3 none)
    if q_no_txt.data ≠ [] ∧ q_no_txt.data.all (·.isDigit) then
      some { q_no := digitsVal q_no_txt.data, q_type := pyUpper q_type,
             sectionName := sec, key_raw := key_raw }
    else none

/-- Rows harvested from one table (lines 53-75): row 0 is a header that must
have ≥ 4 columns with the `"Q. No."` / `"Q. Type"` markers (substring test,
as Python `in`). -/
def tableEntries (table : Table) : List AnswerKeyEntry :=
  if table.length < 2 then []
  else
    let header := (table.headD []).map normCell
    if header.length < 4 then []
    else if strContains (header.getD 0 "") "Q. No." && strContains (header.getD 1 "") "Q. Type" then
      table.tail.filterMap rowEntry
    else []

/-- Entries of the whole document in scan order, before the final sort. -/
def acceptedEntries (doc : List PdfPage) : List AnswerKeyEntry :=
  (doc.map (fun page => (page.map tableEntries).flatten)).flatten

/-- Stable insertion into a list sorted by `key`: the new element goes after
every element whose key is ≤ its own (Python `list.sort` is stable). -/
def insKeyed (key : α → ℕ) (x : α) : List α → List α
  | [] => [x]
  | y :: ys => if key y ≤ key x then y :: insKeyed key x ys else x :: y :: ys

/-- Stable sort by a ℕ-valued key, processing elements in list order. -/
def sortKeyed (key : α → ℕ) (l : List α) : List α :=
  l.foldl (fun acc x => insKeyed key x acc) []

/-- `parse_answer_key` (lines 49-78): collect accepted rows from every table
of every page, then sort ascending by `q_no`. -/
def parse_answer_key (doc : List PdfPage) : List AnswerKeyEntry :=
  sortKeyed (fun e => e.q_no) (acceptedEntries doc)

/-! ## Mark scheme recovery (`parse_mark_scheme`, lines 81-115)

The regex is
`Q\.\s*(\d+)\s*[–-]\s*Q\.\s*(\d+)\s*Carry\s*(ONE|TWO)\s*mark\s*Each`
(IGNORECASE), scanned with `findall` (leftmost, non-overlapping). -/

/-- `_mark_word_to_value` (lines 81-87). -/
def _mark_word_to_value (word : String) : Option ℚ :=
  let w := pyUpper word
  if w = "ONE" then some 1 else if w = "TWO" then some 2 else none

/-- The `[–-]` character class (en-dash or hyphen). -/
def expectDash : List Char → Option (List Char)
  | c :: r => if c = '–' || c = '-' then some r else none
  | [] => none

/-- The `(ONE|TWO)` group; the captured text is returned as matched. -/
def matchMarkWord (l : List Char) : Option (String × List Char) :=
  match expectCI "ONE".data l with
  | some r => some ((l.take 3).asString, r)
  | none =>
    match expectCI "TWO".data l with
    | some r => some ((l.take 3).asString, r)
    | none => none

/-- One attempt of the mark-band regex at the head of `l0`; on success the
two captured numbers, the captured mark word, and the input after the
match. -/
def matchBand (l0 : List Char) : Option (ℕ × ℕ × String × List Char) := do
  let l1 ← expectCI "Q".data l0
  let l2 ← expectCI ".".data l1
  let (a, l3) ← takeDigits (skipWs l2)
  let l4 ← expectDash (skipWs l3)
  let l5 ← expectCI "Q".data (skipWs l4)
  let l6 ← expectCI ".".data l5
  let (b, l7) ← takeDigits (skipWs l6)
  let l8 ← expectCI "Carry".data (skipWs l7)
  let (w, l9) ← matchMarkWord (skipWs l8)
  let l10 ← expectCI "mark".data (skipWs l9)
  let l11 ← expectCI "Each".data (skipWs l10)
  pure (a, b, w, l11)

/-- `findall` for the band regex: try each position left to right, continue
after the end of every match.  The fuel starts at `length + 1`; every step
consumes at least one character, so it never runs out early. -/
def findBandsFrom : ℕ → List Char → List (ℕ × ℕ × String)
  | 0, _ => []
  | fuel + 1, l =>
    match matchBand l with
    | some (a, b, w, rest) => (a, b, w) :: findBandsFrom fuel rest
    | none =>
      match l with
      | [] => []
      | _ :: t => findBandsFrom fuel t

def findBands (l : List Char) : List (ℕ × ℕ × String) := findBandsFrom (l.length + 1) l

/-- All band matches of the document, page by page, in order. -/
def allBands (pages : List String) : List (ℕ × ℕ × String) :=
  (pages.map (fun p => findBands p.data)).flatten

/-- The inner loop of lines 100-107: assign the band's value to every
integer of `range(start, end + 1)` (skipped if the word converts to
nothing, mirroring the `continue`). -/
def assignBand (m : List (ℕ × ℚ)) (b : ℕ × ℕ × String) : List (ℕ × ℚ) :=
  match _mark_word_to_value b.2.2 with
  | none => m
  | some v => (List.range' b.1 (b.2.1 + 1 - b.1)).foldl (fun m q => updD m q v) m

/-- The hardcoded fallback value of line 113. -/
def fallbackVal (q : ℕ) : ℚ := if q ≤ 5 || (11 ≤ q && q ≤ 35) then 1 else 2

/-- Lines 109-113: fill every unassigned number of `1..total_questions`. -/
def applyFallback (tq : ℕ) (m : List (ℕ × ℚ)) : List (ℕ × ℚ) :=
  (List.range' 1 tq).foldl
    (fun m q => if containsKeyD m q then m else updD m q (fallbackVal q)) m

/-- `parse_mark_scheme` (lines 90-115), with the page texts already
extracted. -/
def parse_mark_scheme (pages : List String) (total_questions : ℕ) : List (ℕ × ℚ) :=
  let marks := pages.foldl (fun m page => (findBands page.data).foldl assignBand m) []
  if marks.length < total_questions then applyFallback total_questions marks else marks

/-! ## Response sheet segmentation (`parse_response_sheet`, lines 158-216)

Only the anchor search and the span computation (lines 168-183) are needed
by the claims below.  The anchor regex is
`Question\s*Type\s*:\s*(MCQ|MSQ|NAT)\s*Question\s*ID\s*:\s*(\d+)\s*Status\s*:\s*(Not Attempted and Marked For Review|Marked For Review|Not Answered|Answered)`
(IGNORECASE), scanned with `finditer`. -/

/-- The `(MCQ|MSQ|NAT)` group (alternatives tried left to right; at most one
can match at a given position). -/
def matchQType (l : List Char) : Option (List Char) :=
  match expectCI "MCQ".data l with
  | some r => some r
  | none =>
    match expectCI "MSQ".data l with
    | some r => some r
    | none => expectCI "NAT".data l

/-- The status alternation, in the pattern's order. -/
def matchStatusTail (l : List Char) : Option (List Char) :=
  match expectCI "Not Attempted and Marked For Review".data l with
  | some r => some r
  | none =>
    match expectCI "Marked For Review".data l with
    | some r => some r
    | none =>
      match expectCI "Not Answered".data l with
      | some r => some r
      | none => expectCI "Answered".data l

/-- One attempt of the anchor regex at the head of the input; returns the
input after the match. -/
def matchAnchorRest (l0 : List Char) : Option (List Char) := do
  let l1 ← expectCI "Question".data l0
  let l2 ← expectCI "Type".data (skipWs l1)
  let l3 ← expectCI ":".data (skipWs l2)
  let l4 ← matchQType (skipWs l3)
  let l5 ← expectCI "Question".data (skipWs l4)
  let l6 ← expectCI "ID".data (skipWs l5)
  let l7 ← expectCI ":".data (skipWs l6)
  let (_, l8) ← takeDigits (skipWs l7)
  let l9 ← expectCI "Status".data (skipWs l8)
  let l10 ← expectCI ":".data (skipWs l9)
  matchStatusTail (skipWs l10)

/-- `finditer` for the anchor regex: `(start, end)` index pairs of every
match, leftmost first, continuing after each match's end.  Every successful
match consumes at least one character, so fuel `length + 1` never runs out
while a position ≤ `length` is still unvisited. -/
def findAnchorsFrom (cs : List Char) : ℕ → ℕ → List (ℕ × ℕ)
  | 0, _ => []
  | fuel + 1, pos =>
    let l := cs.drop pos
    match matchAnchorRest l with
    | some rest =>
      let k := l.length - rest.length
      (pos, pos + k) :: findAnchorsFrom cs fuel (pos + max k 1)
    | none => findAnchorsFrom cs fuel (pos + 1)

def findAnchors (cs : List Char) : List (ℕ × ℕ) := findAnchorsFrom cs (cs.length + 1) 0

/-- Python pySlice `cs[a:b]` for 0 ≤ a, b (clamping included). -/
def pySlice (cs : List Char) (a b : ℕ) : List Char := (cs.drop a).take (b - a)

/-- Line 182: `flat_text[start.start() : next_start]` for each anchor, where
`next_start` is the next anchor's start, or the document end for the last. -/
def metaSpans (cs : List Char) : List (ℕ × ℕ) → List (List Char)
  | [] => []
  | (s, _e) :: rest =>
    pySlice cs s (match rest with | [] => cs.length | (s2, _) :: _ => s2) :: metaSpans cs rest

/-- Line 183: `flat_text[prev_end : start.start()]` for each anchor, where
`prev_end` is the previous anchor's end, or 0 for the first. -/
def contentSpans (cs : List Char) : ℕ → List (ℕ × ℕ) → List (List Char)
  | _prevEnd, [] => []
  | prevEnd, (s, e) :: rest => pySlice cs prevEnd s :: contentSpans cs e rest

/-- The concatenation named by the round-trip property: content span then
metadata span of each anchor, in anchor order. -/
def segJoin (cs : List Char) (ms : List (ℕ × ℕ)) : List Char :=
  (List.zipWith (fun c m => c ++ m) (contentSpans cs 0 ms) (metaSpans cs ms)).flatten

/-! ## Option resolution (`_label_to_master_option`, lines 219-226)

`re.search(r"([a-dA-D])\.png(?:\?|$)", url)` — note: no IGNORECASE, so
`.png` must be lowercase while the letter may be either case. -/

def isAD (c : Char) : Bool :=
  c = 'a' || c = 'b' || c = 'c' || c = 'd' || c = 'A' || c = 'B' || c = 'C' || c = 'D'

/-- Leftmost occurrence of letter-`.png`-(end or `?`); the letter is
returned uppercased (line 226 applies `.upper()`).  The regex `$` is
modelled as end-of-string; the urls scanned here come from `[^\s]+`
captures, so they never contain the trailing newline that `$` would also
accept. -/
def masterSuffix : List Char → Option Char
  | [] => none
  | c :: rest =>
    if isAD c && ".png".data.isPrefixOf rest then
      match rest.drop 4 with
      | [] => some c.toUpper
      | q :: _ => if q = '?' then some c.toUpper else masterSuffix rest
    else masterSuffix rest

/-- Python dict lookup on the string-keyed option map. -/
def lookupStr (m : List (String × String)) (k : String) : Option String :=
  (m.find? (fun p => p.1 == k)).map (fun p => p.2)

/-- `_label_to_master_option` (lines 219-226): absent label or a url whose
filename does not encode a canonical letter resolve to nothing. -/
def _label_to_master_option (option_map : List (String × String)) (label : String) :
    Option String :=
  match lookupStr option_map label with
  | none => none
  | some url =>
    match masterSuffix url.data with
    | none => none
    | some c => some (String.mk [c])

/-! ## NAT range parsing (`parse_nat_range`, lines 229-233)

`re.search(r"([-+]?\d+(?:\.\d+)?)\s*to\s*([-+]?\d+(?:\.\d+)?)", key_raw, re.IGNORECASE)`. -/

/-- Value of a fractional digit run. -/
def fracVal (ds : List Char) : ℚ := (digitsVal ds : ℚ) / (10 : ℚ) ^ ds.length

/-- One attempt of `[-+]?\d+(?:\.\d+)?` at the head of the input, as an
exact rational (Python parses the text with `float`). -/
def matchNum (l : List Char) : Option (ℚ × List Char) :=
  let sl : ℚ × List Char :=
    match l with
    | '-' :: r => (-1, r)
    | '+' :: r => (1, r)
    | _ => (1, l)
  match takeDigits sl.2 with
  | none => none
  | some (n, l2) =>
    match l2 with
    | '.' :: r2 =>
      if (r2.takeWhile (·.isDigit)).isEmpty then some (sl.1 * (n : ℚ), l2)
      else
        some (sl.1 * ((n : ℚ) + fracVal (r2.takeWhile (·.isDigit))),
              r2.dropWhile (·.isDigit))
    | _ => some (sl.1 * (n : ℚ), l2)

/-- One attempt of the whole range pattern at the head of the input. -/
def tryRangeAt (l : List Char) : Option (ℚ × ℚ) := do
  let (a, l1) ← matchNum l
  let l2 ← expectCI "to".data (skipWs l1)
  let (b, _) ← matchNum (skipWs l2)
  pure (a, b)

/-- `re.search`: leftmost position at which the range pattern matches. -/
def natRangeScan : List Char → Option (ℚ × ℚ)
  | [] => none
  | c :: rest =>
    match tryRangeAt (c :: rest) with
    | some p => some p
    | none => natRangeScan rest

/-- `parse_nat_range` (lines 229-233): `(None, None)` when no match. -/
def parse_nat_range (key_raw : String) : Option ℚ × Option ℚ :=
  match natRangeScan key_raw.data with
  | some (a, b) => (some a, some b)
  | none => (none, none)

/-! ## Scoring (`evaluate`, lines 236-297) -/

structure ResponseQuestion where
  question_id : ℕ
  q_type : String
  status : String
  chosen_labels : List String
  given_answer : Option ℚ
  option_map : List (String × String)
  deriving Repr, DecidableEq

structure EvaluationRow where
  q_no : ℕ
  question_id : ℕ
  q_type : String
  status : String
  student_answer : String
  correct_answer : String
  marks : ℚ
  max_marks : ℚ
  deriving Repr, DecidableEq

/-- The NAT tolerance `1e-9`. -/
def eps : ℚ := 1 / 1000000000

/-- Display form of a numeric answer (`str(response.given_answer)`); only
used for the `student_answer` field of answered NAT rows, which no claim
inspects, so the exact float formatting of Python is not reproduced. -/
def ratToDisplay (q : ℚ) : String := toString q

/-- The MSQ resolved labels (lines 266-271): every chosen label resolved
through the option map, unresolvable ones discarded. -/
def msqMappedList (resp : ResponseQuestion) : List String :=
  resp.chosen_labels.filterMap (_label_to_master_option resp.option_map)

/-- The MSQ reference items (line 274): `key_raw` split on `;`, trimmed,
uppercased, blanks dropped. -/
def msqCorrectList (key_raw : String) : List String :=
  (pySplit key_raw ';').filterMap
    (fun item => let t := pyStrip item; if t = "" then none else some (pyUpper t))

/-- Equality of the two Python `set` objects: mutual membership. -/
def setEqB (a b : List String) : Bool :=
  a.all (fun x => decide (x ∈ b)) && b.all (fun x => decide (x ∈ a))

/-- The MSQ resolved set, as a set. -/
def msqMappedSet (resp : ResponseQuestion) : Finset String := (msqMappedList resp).toFinset

/-- The MSQ reference set, as a set. -/
def msqCorrectSet (key_raw : String) : Finset String := (msqCorrectList key_raw).toFinset

/-- The loop body of `evaluate` (lines 248-295): score one key entry against
the response paired with it. -/
def scoreEntry (mark_scheme : List (ℕ × ℚ)) (key_entry : AnswerKeyEntry)
    (response : ResponseQuestion) : EvaluationRow :=
  let max_marks := (lookupD mark_scheme key_entry.q_no).getD 1
  let base : EvaluationRow :=
    { q_no := key_entry.q_no, question_id := response.question_id,
      q_type := key_entry.q_type, status := response.status,
      student_answer := "--", correct_answer := key_entry.key_raw,
      marks := 0, max_marks := max_marks }
  if key_entry.q_type = "MCQ" then
    match response.chosen_labels with
    | [] => base
    | l0 :: _ =>
      match _label_to_master_option response.option_map l0 with
      | none => base
      | some mapped =>
        { base with student_answer := mapped,
                    marks := if mapped = key_entry.key_raw then max_marks
                             else -(max_marks / 3) }
  else if key_entry.q_type = "MSQ" then
    let mapped_answers := msqMappedList response
    let correct_list := msqCorrectList key_entry.key_raw
    { base with
        student_answer :=
          if mapped_answers.isEmpty then "--"
          else String.intercalate ";" (sortStrings mapped_answers.dedup),
        marks := if setEqB mapped_answers correct_list then max_marks else 0 }
  else if key_entry.q_type = "NAT" then
    let lohi := parse_nat_range key_entry.key_raw
    match response.given_answer with
    | none => base
    | some g =>
      let inRange : Bool :=
        match lohi with
        | (some lo, some hi) => decide (lo - eps ≤ g ∧ g ≤ hi + eps)
        | _ => false
      { base with student_answer := ratToDisplay g,
                  marks := if inRange then max_marks else 0 }
  else base

/-- `evaluate` (lines 236-297): sort responses by `question_id`, fail when
there are fewer responses than key entries (the raised `ValueError` is
`none`), else pair positionally with the key entries, in key order. -/
def evaluate (answer_key : List AnswerKeyEntry) (mark_scheme : List (ℕ × ℚ))
    (response_questions : List ResponseQuestion) : Option (List EvaluationRow) :=
  let sorted_responses := sortKeyed (fun q => q.question_id) response_questions
  if sorted_responses.length < answer_key.length then none
  else some (List.zipWith (scoreEntry mark_scheme) answer_key sorted_responses)

/-! ## Concrete documents used by the witnesses below -/

/-- A small key document: one page, one table, header plus two rows given
out of order. -/
def c7doc : List PdfPage :=
  [[[[some "Q. No.", some "Q. Type", some "Section", some "Key"],
     [some " 2 ", some "mcq", some "GA", some "A"],
     [some "1", some "nat", some "GA", some "10 to 12"]]]]

/-! ## Derived views of the mark-band matches (used to state C6) -/

/-- The numeric value a band match assigns (`ONE` ↦ 1, `TWO` ↦ 2). -/
def bandVal (b : ℕ × ℕ × String) : Option ℚ := _mark_word_to_value b.2.2

/-- Whether a band match assigns a value to question `q`. -/
def coversQ (q : ℕ) (b : ℕ × ℕ × String) : Bool :=
  (bandVal b).isSome && decide (b.1 ≤ q ∧ q ≤ b.2.1)

/-- The value of the last match covering `q`, in document order. -/
def lastBandVal (bs : List (ℕ × ℕ × String)) (q : ℕ) : Option ℚ :=
  (bs.reverse.find? (coversQ q)).bind bandVal

/-! ## The ordering invariant of `finditer` matches (used for C8) -/

/-- From position `p` on: each match starts no earlier than `p`, ends no
earlier than it starts, ends within the document, and the next match starts
no earlier than this one's end. -/
def chainOK (cs : List Char) : ℕ → List (ℕ × ℕ) → Prop
  | _, [] => True
  | p, (s, e) :: rest => p ≤ s ∧ s ≤ e ∧ e ≤ cs.length ∧ chainOK cs e rest

/-- A flattened response document with two anchors and inter-anchor
material (the text between the end of anchor 1 and the start of anchor 2). -/
def c8doc : String :=
  "A Question Type : MCQ Question ID : 1 Status : Answered B Question Type : NAT Question ID : 2 Status : Answered C"

/-! ## Concrete records used by the witnesses of the scoring claims -/

/-- An MSQ key entry with an empty `key_raw`: its reference set is empty. -/
def c9entry : AnswerKeyEntry :=
  { q_no := 1, q_type := "MSQ", sectionName := "GA", key_raw := "" }

/-- A "Not Answered" response with no chosen labels and no numeric answer. -/
def c9resp : ResponseQuestion :=
  { question_id := 1, q_type := "MSQ", status := "Not Answered",
    chosen_labels := [], given_answer := none, option_map := [] }

def c2entryW : AnswerKeyEntry := { q_no := 1, q_type := "MCQ", sectionName := "GA", key_raw := "B" }

def c2respW : ResponseQuestion :=
  { question_id := 4, q_type := "MCQ", status := "Answered", chosen_labels := ["A"],
    given_answer := none, option_map := [("A", "x/c.png")] }

def c3entryW : AnswerKeyEntry := { q_no := 1, q_type := "MSQ", sectionName := "GA", key_raw := "A;C" }

def c3respW : ResponseQuestion :=
  { question_id := 9, q_type := "MSQ", status := "Answered", chosen_labels := ["X", "Y"],
    given_answer := none, option_map := [("X", "q_a.png"), ("Y", "p_c.png")] }

def c4entryW : AnswerKeyEntry := { q_no := 1, q_type := "NAT", sectionName := "GA", key_raw := "10 to 10.5" }

def c4respW : ResponseQuestion :=
  { question_id := 2, q_type := "NAT", status := "Answered", chosen_labels := [],
    given_answer := some (21 / 2 + 1 / 2000000000), option_map := [] }

def c5entryW : AnswerKeyEntry := { q_no := 3, q_type := "NAT", sectionName := "GA", key_raw := "1 to 2" }

def c9entryW : AnswerKeyEntry := { q_no := 1, q_type := "MCQ", sectionName := "GA", key_raw := "B" }

def c9respW : ResponseQuestion :=
  { question_id := 1, q_type := "MCQ", status := "Not Answered", chosen_labels := [],
    given_answer := none, option_map := [] }

def c10entryW : AnswerKeyEntry := { q_no := 1, q_type := "MCQ", sectionName := "GA", key_raw := "B" }

def c10respW : ResponseQuestion :=
  { question_id := 5, q_type := "MCQ", status := "Answered", chosen_labels := ["A"],
    given_answer := none, option_map := [("A", "z/b.png")] }

/-! ## The Python set comparison, as a set equality -/

theorem setEqB_iff (a b : List String) : setEqB a b = true ↔ a.toFinset = b.toFinset := by
  rw [setEqB, Bool.and_eq_true, List.all_eq_true, List.all_eq_true, Finset.ext_iff]
  constructor
  · rintro ⟨h1, h2⟩ x
    simp only [List.mem_toFinset]
    constructor
    · intro hx
      simpa using h1 x hx
    · intro hx
      simpa using h2 x hx
  · intro h
    constructor
    · intro x hx
      simpa using (h x).mp (by simpa using hx)
    · intro x hx
      simpa using (h x).mpr (by simpa using hx)

/-! ## Structural facts about `scoreEntry` -/

theorem scoreEntry_q_no (s : List (ℕ × ℚ)) (e : AnswerKeyEntry) (r : ResponseQuestion) :
    (scoreEntry s e r).q_no = e.q_no := by
  simp only [scoreEntry]
  repeat' split
  all_goals rfl

theorem scoreEntry_q_type (s : List (ℕ × ℚ)) (e : AnswerKeyEntry) (r : ResponseQuestion) :
    (scoreEntry s e r).q_type = e.q_type := by
  simp only [scoreEntry]
  repeat' split
  all_goals rfl

theorem scoreEntry_max_marks (s : List (ℕ × ℚ)) (e : AnswerKeyEntry) (r : ResponseQuestion) :
    (scoreEntry s e r).max_marks = (lookupD s e.q_no).getD 1 := by
  simp only [scoreEntry]
  repeat' split
  all_goals rfl

/-- C2: for an MCQ key entry, a non-empty choice list whose first label
resolves earns `max_marks` on agreement with `key_raw` and `-max_marks/3`
otherwise; an empty choice list or failed resolution earns 0 with the
placeholder answer. -/
theorem c2_mcq_scoring (scheme : List (ℕ × ℚ)) (entry : AnswerKeyEntry)
    (resp : ResponseQuestion) (htype : entry.q_type = "MCQ") :
    (∀ l0 rest m, resp.chosen_labels = l0 :: rest →
        _label_to_master_option resp.option_map l0 = some m →
        (scoreEntry scheme entry resp).marks =
          (if m = entry.key_raw then (lookupD scheme entry.q_no).getD 1
           else -(((lookupD scheme entry.q_no).getD 1) / 3)))
    ∧ (resp.chosen_labels = [] →
        (scoreEntry scheme entry resp).marks = 0 ∧
          (scoreEntry scheme entry resp).student_answer = "--")
    ∧ (∀ l0 rest, resp.chosen_labels = l0 :: rest →
        _label_to_master_option resp.option_map l0 = none →
        (scoreEntry scheme entry resp).marks = 0 ∧
          (scoreEntry scheme entry resp).student_answer = "--") := by
  refine ⟨?_, ?_, ?_⟩
  · intro l0 rest m hc hm
    simp [scoreEntry, htype, hc, hm]
  · intro hc
    simp [scoreEntry, htype, hc]
  · intro l0 rest hc hm
    simp [scoreEntry, htype, hc, hm]

/-- C3: for an MSQ key entry the row earns `max_marks` exactly when the
resolved chosen set equals the reference set derived from `key_raw`, and 0
in every other case (the stated iff holds whenever `max_marks` is
nonzero). -/
theorem c3_msq_scoring (scheme : List (ℕ × ℚ)) (entry : AnswerKeyEntry)
    (resp : ResponseQuestion) (htype : entry.q_type = "MSQ") :
    (msqMappedSet resp = msqCorrectSet entry.key_raw →
        (scoreEntry scheme entry resp).marks = (lookupD scheme entry.q_no).getD 1)
    ∧ (msqMappedSet resp ≠ msqCorrectSet entry.key_raw →
        (scoreEntry scheme entry resp).marks = 0)
    ∧ ((lookupD scheme entry.q_no).getD 1 ≠ 0 →
        ((scoreEntry scheme entry resp).marks = (lookupD scheme entry.q_no).getD 1 ↔
          msqMappedSet resp = msqCorrectSet entry.key_raw)) := by
  have hne : entry.q_type ≠ "MCQ" := by rw [htype]; decide
  have hiff := setEqB_iff (msqMappedList resp) (msqCorrectList entry.key_raw)
  refine ⟨?_, ?_, ?_⟩
  · intro hEq
    have hb : setEqB (msqMappedList resp) (msqCorrectList entry.key_raw) = true :=
      hiff.mpr hEq
    simp [scoreEntry, hne, htype, hb]
  · intro hNe
    have hb : setEqB (msqMappedList resp) (msqCorrectList entry.key_raw) = false := by
      rcases Bool.eq_false_or_eq_true (setEqB (msqMappedList resp) (msqCorrectList entry.key_raw))
        with h | h
      · exact absurd (hiff.mp h) hNe
      · exact h
    simp [scoreEntry, hne, htype, hb]
  · intro hmm
    by_cases hEq : msqMappedSet resp = msqCorrectSet entry.key_raw
    · have hb : setEqB (msqMappedList resp) (msqCorrectList entry.key_raw) = true :=
        hiff.mpr hEq
      simp [scoreEntry, hne, htype, hb, hEq]
    · have hb : setEqB (msqMappedList resp) (msqCorrectList entry.key_raw) = false := by
        rcases Bool.eq_false_or_eq_true (setEqB (msqMappedList resp) (msqCorrectList entry.key_raw))
          with h | h
        · exact absurd (hiff.mp h) hEq
        · exact h
      simp [scoreEntry, hne, htype, hb, hEq, Ne.symm hmm]

/-- C4: for a NAT key entry whose `key_raw` parses as a range, a present
answer earns `max_marks` exactly on the closed interval widened by `1e-9`
and 0 outside it; an absent answer or an unparseable key earns 0, and the
marks are never negative (given a nonnegative mark value). -/
theorem c4_nat_scoring (scheme : List (ℕ × ℚ)) (entry : AnswerKeyEntry)
    (resp : ResponseQuestion) (htype : entry.q_type = "NAT") :
    (∀ lo hi, parse_nat_range entry.key_raw = (some lo, some hi) →
        (∀ g, resp.given_answer = some g →
            (scoreEntry scheme entry resp).marks =
              (if lo - eps ≤ g ∧ g ≤ hi + eps then (lookupD scheme entry.q_no).getD 1 else 0))
        ∧ (resp.given_answer = none → (scoreEntry scheme entry resp).marks = 0)
        ∧ ((lookupD scheme entry.q_no).getD 1 ≠ 0 →
            ((scoreEntry scheme entry resp).marks = (lookupD scheme entry.q_no).getD 1 ↔
              ∃ g, resp.given_answer = some g ∧ lo - eps ≤ g ∧ g ≤ hi + eps)))
    ∧ (parse_nat_range entry.key_raw = (none, none) →
        (scoreEntry scheme entry resp).marks = 0)
    ∧ (0 ≤ (lookupD scheme entry.q_no).getD 1 → 0 ≤ (scoreEntry scheme entry resp).marks) := by
  have hne1 : entry.q_type ≠ "MCQ" := by rw [htype]; decide
  have hne2 : entry.q_type ≠ "MSQ" := by rw [htype]; decide
  refine ⟨?_, ?_, ?_⟩
  · intro lo hi hrange
    have hEq : ∀ g, resp.given_answer = some g →
        (scoreEntry scheme entry resp).marks =
          (if lo - eps ≤ g ∧ g ≤ hi + eps then (lookupD scheme entry.q_no).getD 1 else 0) := by
      intro g hg
      by_cases hin : lo - eps ≤ g ∧ g ≤ hi + eps <;>
        simp [scoreEntry, hne1, hne2, htype, hrange, hg, hin]
    refine ⟨hEq, ?_, ?_⟩
    · intro hg
      simp [scoreEntry, hne1, hne2, htype, hrange, hg]
    · intro hmm
      constructor
      · intro hmarks
        match hg : resp.given_answer with
        | none =>
          simp [scoreEntry, hne1, hne2, htype, hrange, hg] at hmarks
          exact absurd hmarks.symm hmm
        | some g =>
          rw [hEq g hg] at hmarks
          by_cases hin : lo - eps ≤ g ∧ g ≤ hi + eps
          · exact ⟨g, rfl, hin⟩
          · rw [if_neg hin] at hmarks
            exact absurd hmarks.symm hmm
      · rintro ⟨g, hg, hin⟩
        rw [hEq g hg, if_pos hin]
  · intro hrange
    match hg : resp.given_answer with
    | none => simp [scoreEntry, hne1, hne2, htype, hrange, hg]
    | some g => simp [scoreEntry, hne1, hne2, htype, hrange, hg]
  · intro hmm
    have h1 : ("NAT" : String) ≠ "MCQ" := by decide
    have h2 : ("NAT" : String) ≠ "MSQ" := by decide
    match hg : resp.given_answer with
    | none => simp [scoreEntry, htype, hg, h1, h2]
    | some g =>
      match hr : parse_nat_range entry.key_raw with
      | (some lo, some hi) =>
        simp only [scoreEntry, htype, hg, h1, h2, hr]
        simp [h1, h2]
        split
        · exact hmm
        · exact le_refl 0
      | (some lo, none) => simp [scoreEntry, htype, hg, h1, h2, hr]
      | (none, some hi) => simp [scoreEntry, htype, hg, h1, h2, hr]
      | (none, none) => simp [scoreEntry, htype, hg, h1, h2, hr]

/-! ## Claim C9: the "Not Answered" placeholder outcome -/

/-- C9 counterexample: an unanswered MSQ question whose `key_raw` is empty
is awarded full marks (the empty resolved set equals the empty reference
set), not 0 as the claim states. -/
theorem c9_counterexample :
    c9resp.status = "Not Answered" ∧ c9resp.chosen_labels = [] ∧
      c9resp.given_answer = none ∧ (scoreEntry [] c9entry c9resp).marks = 1 := by
  refine ⟨rfl, rfl, rfl, ?_⟩
  decide

/-- C9 (amended): for a key entry of type MCQ, MSQ or NAT paired with a
"Not Answered" response carrying no chosen labels and no numeric answer,
the row has marks 0 and the placeholder answer, provided that for an MSQ
entry the reference set derived from `key_raw` is non-empty. -/
theorem c9_not_answered_zero (scheme : List (ℕ × ℚ)) (entry : AnswerKeyEntry)
    (resp : ResponseQuestion)
    (htype : entry.q_type = "MCQ" ∨ entry.q_type = "MSQ" ∨ entry.q_type = "NAT")
    (_hstatus : resp.status = "Not Answered")
    (hchosen : resp.chosen_labels = [])
    (hgiven : resp.given_answer = none)
    (hmsq : entry.q_type = "MSQ" → msqCorrectSet entry.key_raw ≠ ∅) :
    (scoreEntry scheme entry resp).marks = 0 ∧
      (scoreEntry scheme entry resp).student_answer = "--" := by
  have hmap : msqMappedList resp = [] := by
    simp [msqMappedList, hchosen]
  rcases htype with h | h | h
  · simp [scoreEntry, h, hchosen]
  · have hne : entry.q_type ≠ "MCQ" := by rw [h]; decide
    have hcs := hmsq h
    have hb : setEqB (msqMappedList resp) (msqCorrectList entry.key_raw) = false := by
      rcases Bool.eq_false_or_eq_true (setEqB (msqMappedList resp) (msqCorrectList entry.key_raw))
        with hx | hx
      · exfalso
        apply hcs
        have h2 := (setEqB_iff _ _).mp hx
        rw [hmap] at h2
        simpa [msqCorrectSet] using h2.symm
      · exact hx
    rw [hmap] at hb
    simp [scoreEntry, h, hne, hmap, hb]
  · have hne1 : entry.q_type ≠ "MCQ" := by rw [h]; decide
    have hne2 : entry.q_type ≠ "MSQ" := by rw [h]; decide
    simp [scoreEntry, h, hne1, hne2, hgiven]

/-! ## Claim C10: the marks invariant of `evaluate` -/

/-- Membership in a `zipWith` comes from members of the two lists. -/
theorem mem_zipWith_ex {α β γ : Type} {f : α → β → γ} :
    ∀ {l1 : List α} {l2 : List β} {c : γ},
      c ∈ List.zipWith f l1 l2 → ∃ a b, a ∈ l1 ∧ b ∈ l2 ∧ c = f a b := by
  intro l1
  induction l1 with
  | nil => intro l2 c h; simp at h
  | cons a as ih =>
    intro l2 c h
    cases l2 with
    | nil => simp at h
    | cons b bs =>
      rw [List.zipWith_cons_cons, List.mem_cons] at h
      rcases h with h | h
      · exact ⟨a, b, by simp, by simp, h⟩
      · obtain ⟨x, y, hx, hy, hc⟩ := ih h
        exact ⟨x, y, by simp [hx], by simp [hy], hc⟩

/-- A value bound in the scheme is one of its pairs' values. -/
theorem lookupD_mem : ∀ (m : List (ℕ × ℚ)) (k : ℕ) (v : ℚ),
    lookupD m k = some v → (k, v) ∈ m := by
  intro m
  induction m with
  | nil => intro k v h; simp [lookupD] at h
  | cons p rest ih =>
    intro k v h
    rw [lookupD] at h
    split at h
    · rename_i hk
      have hv : p.2 = v := by injection h
      have hp : p = (k, v) := by
        cases p
        simp_all
      rw [← hp]
      exact List.mem_cons_self _ _
    · exact List.mem_cons_of_mem _ (ih k v h)

/-- Under a nonnegative mark scheme the default-1 lookup is nonnegative. -/
theorem lookupD_getD_nonneg (s : List (ℕ × ℚ)) (k : ℕ)
    (hpos : ∀ p ∈ s, 0 ≤ p.2) : 0 ≤ (lookupD s k).getD 1 := by
  match h : lookupD s k with
  | none => simp
  | some v =>
    have := hpos (k, v) (lookupD_mem s k v h)
    simpa using this

/-- Marks produced by `scoreEntry` take one of the three values of the
scoring rules. -/
theorem scoreEntry_marks_cases (s : List (ℕ × ℚ)) (e : AnswerKeyEntry)
    (r : ResponseQuestion) :
    (scoreEntry s e r).marks = (scoreEntry s e r).max_marks ∨
      (scoreEntry s e r).marks = 0 ∨
      (scoreEntry s e r).marks = -((scoreEntry s e r).max_marks / 3) := by
  simp only [scoreEntry]
  repeat' split
  all_goals simp

/-- A strictly negative mark can only arise in the MCQ branch (under a
nonnegative mark value for the entry). -/
theorem scoreEntry_neg_mcq (s : List (ℕ × ℚ)) (e : AnswerKeyEntry)
    (r : ResponseQuestion) (hpos : 0 ≤ (lookupD s e.q_no).getD 1)
    (h : (scoreEntry s e r).marks < 0) :
    (scoreEntry s e r).q_type = "MCQ" := by
  rw [scoreEntry_q_type]
  by_contra hne
  have hnn : 0 ≤ (scoreEntry s e r).marks := by
    simp only [scoreEntry, if_neg hne]
    repeat' split
    all_goals simp_all
  linarith

/-- C10: every row produced by `evaluate` carries marks equal to
`max_marks`, 0, or `-max_marks/3`, never exceeding `max_marks`, and a
strictly negative mark only on an MCQ row (for any scheme with nonnegative
mark values, which `parse_mark_scheme` always produces). -/
theorem c10_marks_invariant (answer_key : List AnswerKeyEntry)
    (scheme : List (ℕ × ℚ)) (resps : List ResponseQuestion)
    (rows : List EvaluationRow) (hpos : ∀ p ∈ scheme, 0 ≤ p.2)
    (h : evaluate answer_key scheme resps = some rows) :
    ∀ row ∈ rows,
      (row.marks = row.max_marks ∨ row.marks = 0 ∨ row.marks = -(row.max_marks / 3))
      ∧ row.marks ≤ row.max_marks
      ∧ (row.marks < 0 → row.q_type = "MCQ") := by
  intro row hrow
  have hze : rows = List.zipWith (scoreEntry scheme) answer_key
      (sortKeyed (fun q => q.question_id) resps) := by
    rw [evaluate] at h
    split at h
    · exact absurd h (by simp)
    · exact (Option.some_injective _ h).symm
  rw [hze] at hrow
  obtain ⟨e, r, _he, _hr, hc⟩ := mem_zipWith_ex hrow
  subst hc
  have hmm : 0 ≤ (lookupD scheme e.q_no).getD 1 := lookupD_getD_nonneg scheme e.q_no hpos
  have hmax : (scoreEntry scheme e r).max_marks = (lookupD scheme e.q_no).getD 1 :=
    scoreEntry_max_marks scheme e r
  refine ⟨scoreEntry_marks_cases scheme e r, ?_, scoreEntry_neg_mcq scheme e r hmm⟩
  rcases scoreEntry_marks_cases scheme e r with hcase | hcase | hcase <;> rw [hcase]
  · rw [hmax]
    linarith
  · rw [hmax]
    linarith

/-! ## Claim C5: the failure condition and shape of `evaluate` -/

theorem insKeyed_length (key : α → ℕ) (x : α) :
    ∀ l : List α, (insKeyed key x l).length = l.length + 1 := by
  intro l
  induction l with
  | nil => rfl
  | cons y ys ih =>
    rw [insKeyed]
    split
    · simp [ih]
    · simp

theorem sortKeyed_length (key : α → ℕ) (l : List α) :
    (sortKeyed key l).length = l.length := by
  suffices h : ∀ acc : List α,
      (l.foldl (fun acc x => insKeyed key x acc) acc).length = acc.length + l.length by
    simpa using h []
  induction l with
  | nil => intro acc; simp
  | cons x xs ih =>
    intro acc
    rw [List.foldl_cons, ih (insKeyed key x acc), insKeyed_length, List.length_cons]
    omega

/-- `zipWith` against an at-least-as-long second list maps the first. -/
theorem zipWith_map_q_no (scheme : List (ℕ × ℚ)) :
    ∀ (k : List AnswerKeyEntry) (rs : List ResponseQuestion), k.length ≤ rs.length →
      (List.zipWith (scoreEntry scheme) k rs).map (fun row => row.q_no) =
        k.map (fun e => e.q_no) := by
  intro k
  induction k with
  | nil => intro rs _; simp
  | cons e es ih =>
    intro rs hlen
    cases rs with
    | nil => simp at hlen
    | cons r rest =>
      rw [List.zipWith_cons_cons, List.map_cons, List.map_cons, scoreEntry_q_no]
      rw [ih rest (by simpa using hlen)]

/-- C5: `evaluate` fails exactly when there are strictly fewer response
records than answer-key entries; on success it returns one row per key
entry, in key order (matching `q_no` sequences). -/
theorem c5_evaluate_shape (answer_key : List AnswerKeyEntry)
    (scheme : List (ℕ × ℚ)) (resps : List ResponseQuestion) :
    (evaluate answer_key scheme resps = none ↔ resps.length < answer_key.length)
    ∧ (∀ rows, evaluate answer_key scheme resps = some rows →
        rows.length = answer_key.length ∧
          rows.map (fun row => row.q_no) = answer_key.map (fun e => e.q_no)) := by
  have hslen : (sortKeyed (fun q => q.question_id) resps).length = resps.length :=
    sortKeyed_length _ resps
  constructor
  · rw [evaluate]
    split
    · rename_i hlt
      rw [hslen] at hlt
      simp [hlt]
    · rename_i hge
      rw [hslen] at hge
      simp [hge]
  · intro rows h
    rw [evaluate] at h
    split at h
    · exact absurd h (by simp)
    · rename_i hge
      rw [hslen] at hge
      have hlen : answer_key.length ≤ resps.length := by omega
      obtain rfl := (Option.some_injective _ h).symm
      constructor
      · rw [List.length_zipWith, hslen]
        omega
      · exact zipWith_map_q_no scheme answer_key _ (by rw [hslen]; omega)

/-! ## Concrete instances for the scoring claims -/

theorem c2_witness :
    c2entryW.q_type = "MCQ" ∧ (scoreEntry [(1, 2)] c2entryW c2respW).marks = -(2 / 3) := by
  refine ⟨rfl, ?_⟩
  have h := (c2_mcq_scoring [(1, 2)] c2entryW c2respW rfl).1 "A" [] "C" rfl (by decide)
  rw [h, if_neg (by decide)]
  norm_num [lookupD, c2entryW]

theorem c3_witness :
    c3entryW.q_type = "MSQ" ∧ (scoreEntry [] c3entryW c3respW).marks = 1 := by
  refine ⟨rfl, ?_⟩
  have h := (c3_msq_scoring [] c3entryW c3respW rfl).1 rfl
  rw [h]
  rfl

theorem c4_witness :
    c4entryW.q_type = "NAT" ∧ (scoreEntry [] c4entryW c4respW).marks = 1 := by
  refine ⟨rfl, ?_⟩
  have hrange : parse_nat_range c4entryW.key_raw = (some 10, some (21 / 2)) := by
    have hd : c4entryW.key_raw.data = ['1', '0', ' ', 't', 'o', ' ', '1', '0', '.', '5'] := rfl
    have h1 : ('1').toNat = 49 := rfl
    have h0 : ('0').toNat = 48 := rfl
    have h5 : ('5').toNat = 53 := rfl
    rw [parse_nat_range, hd]
    norm_num +decide [natRangeScan, tryRangeAt, matchNum, takeDigits, skipWs, expectCI, lowEq,
      fracVal, digitsVal, isWs, h1, h0, h5]
  have h := ((c4_nat_scoring [] c4entryW c4respW rfl).1 10 (21 / 2) hrange).1
    (21 / 2 + 1 / 2000000000) rfl
  rw [h, if_pos (by constructor <;> norm_num [eps])]
  rfl

theorem c5_witness : evaluate [c5entryW] [] [] = none :=
  (c5_evaluate_shape [c5entryW] [] []).1.mpr (by decide)

theorem c9_witness :
    (scoreEntry [] c9entryW c9respW).marks = 0 ∧
      (scoreEntry [] c9entryW c9respW).student_answer = "--" :=
  c9_not_answered_zero [] c9entryW c9respW (Or.inl rfl) rfl rfl rfl
    (fun h => absurd h (by decide))

theorem c10_witness :
    ((scoreEntry [(1, 2)] c10entryW c10respW).marks = (scoreEntry [(1, 2)] c10entryW c10respW).max_marks ∨
      (scoreEntry [(1, 2)] c10entryW c10respW).marks = 0 ∨
      (scoreEntry [(1, 2)] c10entryW c10respW).marks = -((scoreEntry [(1, 2)] c10entryW c10respW).max_marks / 3))
    ∧ (scoreEntry [(1, 2)] c10entryW c10respW).marks ≤ (scoreEntry [(1, 2)] c10entryW c10respW).max_marks
    ∧ ((scoreEntry [(1, 2)] c10entryW c10respW).marks < 0 →
        (scoreEntry [(1, 2)] c10entryW c10respW).q_type = "MCQ") :=
  c10_marks_invariant [c10entryW] [(1, 2)] [c10respW] [scoreEntry [(1, 2)] c10entryW c10respW]
    (by decide) rfl (scoreEntry [(1, 2)] c10entryW c10respW) (List.mem_singleton.mpr rfl)

/-! ## Claim C7: the answer key is sorted and duplicate-free -/

theorem insKeyed_perm (key : α → ℕ) (x : α) :
    ∀ l, List.Perm (insKeyed key x l) (x :: l) := by
  intro l
  induction l with
  | nil => simp [insKeyed]
  | cons y ys ih =>
    rw [insKeyed]
    split
    · exact (ih.cons y).trans (List.Perm.swap x y ys)
    · exact List.Perm.refl _

theorem sortKeyed_fold_perm (key : α → ℕ) :
    ∀ (l acc : List α),
      List.Perm (l.foldl (fun a x => insKeyed key x a) acc) (acc ++ l) := by
  intro l
  induction l with
  | nil => intro acc; simp
  | cons x xs ih =>
    intro acc
    rw [List.foldl_cons]
    refine (ih (insKeyed key x acc)).trans ?_
    refine (List.Perm.append_right xs (insKeyed_perm key x acc)).trans ?_
    exact List.perm_middle.symm

theorem sortKeyed_perm (key : α → ℕ) (l : List α) :
    List.Perm (sortKeyed key l) l := by
  simpa using sortKeyed_fold_perm key l []

theorem insKeyed_sorted (key : α → ℕ) (x : α) :
    ∀ l, l.Pairwise (fun a b => key a ≤ key b) →
      (insKeyed key x l).Pairwise (fun a b => key a ≤ key b) := by
  intro l
  induction l with
  | nil => intro _; simp [insKeyed]
  | cons y ys ih =>
    intro h
    rw [List.pairwise_cons] at h
    obtain ⟨hy, hys⟩ := h
    rw [insKeyed]
    split
    · rename_i hle
      rw [List.pairwise_cons]
      refine ⟨?_, ih hys⟩
      intro z hz
      rcases List.mem_cons.mp ((insKeyed_perm key x ys).mem_iff.mp hz) with rfl | hz2
      · exact hle
      · exact hy z hz2
    · rename_i hgt
      have hxy : key x ≤ key y := by omega
      rw [List.pairwise_cons]
      refine ⟨?_, List.pairwise_cons.mpr ⟨hy, hys⟩⟩
      intro z hz
      rcases List.mem_cons.mp hz with rfl | hz2
      · exact hxy
      · exact le_trans hxy (hy z hz2)

theorem sortKeyed_fold_sorted (key : α → ℕ) :
    ∀ (l acc : List α), acc.Pairwise (fun a b => key a ≤ key b) →
      (l.foldl (fun a x => insKeyed key x a) acc).Pairwise (fun a b => key a ≤ key b) := by
  intro l
  induction l with
  | nil => intro acc h; simpa using h
  | cons x xs ih =>
    intro acc h
    rw [List.foldl_cons]
    exact ih (insKeyed key x acc) (insKeyed_sorted key x acc h)

theorem sortKeyed_sorted (key : α → ℕ) (l : List α) :
    (sortKeyed key l).Pairwise (fun a b => key a ≤ key b) :=
  sortKeyed_fold_sorted key l [] (by simp)

/-- C7: for every key document whose accepted rows carry pairwise distinct
question numbers (the spec's validity assumption: `q_no` is unique within
the document), `parse_answer_key` returns a list sorted ascending by `q_no`
with no duplicate `q_no`. -/
theorem c7_answer_key_sorted_unique (doc : List PdfPage)
    (hvalid : ((acceptedEntries doc).map (fun e => e.q_no)).Nodup) :
    List.Sorted (· ≤ ·) ((parse_answer_key doc).map (fun e => e.q_no)) ∧
      ((parse_answer_key doc).map (fun e => e.q_no)).Nodup := by
  constructor
  · have hp := sortKeyed_sorted (fun e : AnswerKeyEntry => e.q_no) (acceptedEntries doc)
    rw [parse_answer_key, List.Sorted, List.pairwise_map]
    exact hp
  · have hperm :=
      (sortKeyed_perm (fun e : AnswerKeyEntry => e.q_no) (acceptedEntries doc)).map
        (fun e => e.q_no)
    rw [parse_answer_key]
    exact hperm.nodup_iff.mpr hvalid

theorem c7_witness :
    ((acceptedEntries c7doc).map (fun e => e.q_no)).Nodup ∧
      (List.Sorted (· ≤ ·) ((parse_answer_key c7doc).map (fun e => e.q_no)) ∧
        ((parse_answer_key c7doc).map (fun e => e.q_no)).Nodup) :=
  ⟨by decide, c7_answer_key_sorted_unique c7doc (by decide)⟩

/-! ## Dict lemmas for `parse_mark_scheme` -/

theorem lookupD_updD : ∀ (m : List (ℕ × ℚ)) (k : ℕ) (v : ℚ) (q : ℕ),
    lookupD (updD m k v) q = if q = k then some v else lookupD m q := by
  intro m
  induction m with
  | nil =>
    intro k v q
    rcases eq_or_ne q k with rfl | hne
    · simp [updD, lookupD]
    · simp [updD, lookupD, hne, Ne.symm hne]
  | cons p rest ih =>
    intro k v q
    rw [updD]
    split
    · rename_i hpk
      rcases eq_or_ne q k with rfl | hne
      · simp [lookupD]
      · simp [lookupD, hne, Ne.symm hne, hpk]
    · rename_i hpk
      rcases eq_or_ne p.1 q with hpq | hpq
      · have hqk : q ≠ k := fun h => hpk (by rw [hpq, h])
        simp [lookupD, hpq, hqk]
      · simp [lookupD, hpq, ih k v q]

theorem mem_keysD_updD : ∀ (m : List (ℕ × ℚ)) (k : ℕ) (v : ℚ) (q : ℕ),
    q ∈ keysD (updD m k v) ↔ q = k ∨ q ∈ keysD m := by
  intro m
  induction m with
  | nil => intro k v q; simp [updD, keysD]
  | cons p rest ih =>
    intro k v q
    rw [updD]
    split
    · rename_i hpk
      simp [keysD, hpk]
    · rename_i hpk
      simp only [keysD, List.map_cons, List.mem_cons] at ih ⊢
      rw [ih k v q]
      tauto

theorem keysD_nodup_updD : ∀ (m : List (ℕ × ℚ)) (k : ℕ) (v : ℚ),
    (keysD m).Nodup → (keysD (updD m k v)).Nodup := by
  intro m
  induction m with
  | nil => intro k v _; simp [updD, keysD]
  | cons p rest ih =>
    intro k v h
    simp only [keysD, List.map_cons, List.nodup_cons] at h
    obtain ⟨hp, hrest⟩ := h
    rw [updD]
    split
    · rename_i hpk
      simp only [keysD, List.map_cons, List.nodup_cons]
      exact ⟨by rw [← hpk]; exact hp, hrest⟩
    · rename_i hpk
      simp only [keysD, List.map_cons, List.nodup_cons]
      constructor
      · intro hmem
        rcases (mem_keysD_updD rest k v p.1).mp hmem with h1 | h1
        · exact hpk h1
        · exact hp h1
      · exact ih k v hrest

/-! ## Keys produced by the band-assignment phase -/

theorem keys_foldUpd_bound (v : ℚ) (tq : ℕ) :
    ∀ (L : List ℕ) (m : List (ℕ × ℚ)),
      (∀ q ∈ L, 1 ≤ q ∧ q ≤ tq) → (∀ q ∈ keysD m, 1 ≤ q ∧ q ≤ tq) →
      ∀ q ∈ keysD (L.foldl (fun m q => updD m q v) m), 1 ≤ q ∧ q ≤ tq := by
  intro L
  induction L with
  | nil => intro m _ hm; simpa using hm
  | cons x xs ih =>
    intro m hL hm
    rw [List.foldl_cons]
    refine ih (updD m x v) (fun q hq => hL q (List.mem_cons_of_mem x hq)) ?_
    intro q hq
    rcases (mem_keysD_updD m x v q).mp hq with rfl | hq2
    · exact hL q (List.mem_cons_self _ _)
    · exact hm q hq2

theorem keys_foldUpd_nodup (v : ℚ) :
    ∀ (L : List ℕ) (m : List (ℕ × ℚ)),
      (keysD m).Nodup → (keysD (L.foldl (fun m q => updD m q v) m)).Nodup := by
  intro L
  induction L with
  | nil => intro m hm; simpa using hm
  | cons x xs ih =>
    intro m hm
    rw [List.foldl_cons]
    exact ih (updD m x v) (keysD_nodup_updD m x v hm)

theorem assignBand_keys_bound (tq : ℕ) (b : ℕ × ℕ × String)
    (hb : 1 ≤ b.1 ∧ b.2.1 ≤ tq) (m : List (ℕ × ℚ))
    (hm : ∀ q ∈ keysD m, 1 ≤ q ∧ q ≤ tq) :
    ∀ q ∈ keysD (assignBand m b), 1 ≤ q ∧ q ≤ tq := by
  rw [assignBand]
  split
  · exact hm
  · refine keys_foldUpd_bound _ tq _ m ?_ hm
    intro q hq
    have := List.mem_range'_1.mp hq
    omega

theorem assignBand_nodup (b : ℕ × ℕ × String) (m : List (ℕ × ℚ))
    (hm : (keysD m).Nodup) : (keysD (assignBand m b)).Nodup := by
  rw [assignBand]
  split
  · exact hm
  · exact keys_foldUpd_nodup _ _ m hm

theorem bands_fold_keys_bound (tq : ℕ) :
    ∀ (bs : List (ℕ × ℕ × String)) (m : List (ℕ × ℚ)),
      (∀ b ∈ bs, 1 ≤ b.1 ∧ b.2.1 ≤ tq) → (∀ q ∈ keysD m, 1 ≤ q ∧ q ≤ tq) →
      ∀ q ∈ keysD (bs.foldl assignBand m), 1 ≤ q ∧ q ≤ tq := by
  intro bs
  induction bs with
  | nil => intro m _ hm; simpa using hm
  | cons b rest ih =>
    intro m hbs hm
    rw [List.foldl_cons]
    exact ih (assignBand m b) (fun x hx => hbs x (List.mem_cons_of_mem b hx))
      (assignBand_keys_bound tq b (hbs b (List.mem_cons_self b rest)) m hm)

theorem bands_fold_nodup :
    ∀ (bs : List (ℕ × ℕ × String)) (m : List (ℕ × ℚ)),
      (keysD m).Nodup → (keysD (bs.foldl assignBand m)).Nodup := by
  intro bs
  induction bs with
  | nil => intro m hm; simpa using hm
  | cons b rest ih =>
    intro m hm
    rw [List.foldl_cons]
    exact ih (assignBand m b) (assignBand_nodup b m hm)

/-- The page-by-page fold of `parse_mark_scheme` is the fold over all the
matches of the document. -/
theorem parse_fold_eq (pages : List String) :
    pages.foldl (fun m page => (findBands page.data).foldl assignBand m) [] =
      (allBands pages).foldl assignBand [] := by
  suffices h : ∀ (ps : List String) (m : List (ℕ × ℚ)),
      ps.foldl (fun m page => (findBands page.data).foldl assignBand m) m =
        (allBands ps).foldl assignBand m by
    exact h pages []
  intro ps
  induction ps with
  | nil => intro m; simp [allBands]
  | cons p rest ih =>
    intro m
    rw [List.foldl_cons, ih]
    simp only [allBands, List.map_cons, List.flatten_cons, List.foldl_append]

/-! ## The fallback fill phase -/

theorem containsKeyD_iff (m : List (ℕ × ℚ)) (k : ℕ) :
    containsKeyD m k = true ↔ k ∈ keysD m := by
  induction m with
  | nil => simp [containsKeyD, lookupD, keysD]
  | cons p rest ih =>
    rw [containsKeyD, lookupD]
    split
    · rename_i hpk
      simp [keysD, hpk]
    · rename_i hpk
      rw [← containsKeyD]
      simp only [keysD, List.map_cons, List.mem_cons] at ih ⊢
      rw [ih]
      constructor
      · exact fun h => Or.inr h
      · rintro (h | h)
        · exact absurd h.symm hpk
        · exact h

theorem fb_fold_keys :
    ∀ (L : List ℕ) (m : List (ℕ × ℚ)) (q : ℕ),
      q ∈ keysD (L.foldl
        (fun m q => if containsKeyD m q then m else updD m q (fallbackVal q)) m) ↔
        q ∈ keysD m ∨ q ∈ L := by
  intro L
  induction L with
  | nil => intro m q; simp
  | cons x xs ih =>
    intro m q
    rw [List.foldl_cons, ih]
    constructor
    · rintro (h | h)
      · split at h
        · tauto
        · rcases (mem_keysD_updD m x _ q).mp h with rfl | h2
          · simp
          · tauto
      · simp [h]
    · rintro (h | h)
      · left
        split
        · exact h
        · exact (mem_keysD_updD m x _ q).mpr (Or.inr h)
      · rcases List.mem_cons.mp h with rfl | h2
        · left
          split
          · rename_i hc
            exact (containsKeyD_iff m q).mp hc
          · exact (mem_keysD_updD m q _ q).mpr (Or.inl rfl)
        · tauto

theorem fb_fold_nodup :
    ∀ (L : List ℕ) (m : List (ℕ × ℚ)),
      (keysD m).Nodup →
      (keysD (L.foldl
        (fun m q => if containsKeyD m q then m else updD m q (fallbackVal q)) m)).Nodup := by
  intro L
  induction L with
  | nil => intro m hm; simpa using hm
  | cons x xs ih =>
    intro m hm
    rw [List.foldl_cons]
    refine ih _ ?_
    split
    · exact hm
    · exact keysD_nodup_updD m x _ hm

/-- C1 (amended): provided every matched mark-band range lies within
`[1, total_questions]` (in particular with zero matches), the map returned
by `parse_mark_scheme` has exactly `total_questions` entries and its key
set is exactly `{1, ..., total_questions}`.  Ranges extending beyond
`total_questions` violate the original claim (see the counterexample). -/
theorem c1_mark_scheme_keys (pages : List String) (tq : ℕ)
    (hb : ∀ b ∈ allBands pages, 1 ≤ b.1 ∧ b.2.1 ≤ tq) :
    (keysD (parse_mark_scheme pages tq)).toFinset = Finset.Icc 1 tq ∧
      (parse_mark_scheme pages tq).length = tq := by
  have hfold := parse_fold_eq pages
  set m1 := (allBands pages).foldl assignBand [] with hm1
  have hbound : ∀ q ∈ keysD m1, 1 ≤ q ∧ q ≤ tq :=
    bands_fold_keys_bound tq (allBands pages) [] hb (by simp [keysD])
  have hnd1 : (keysD m1).Nodup := bands_fold_nodup (allBands pages) [] (by simp [keysD])
  have hlen_keys : ∀ m : List (ℕ × ℚ), (keysD m).length = m.length := by
    intro m; simp [keysD]
  rw [parse_mark_scheme, hfold]
  split
  · rename_i hlt
    rw [applyFallback]
    have hkeys : ∀ q, q ∈ keysD (List.foldl
        (fun m q => if containsKeyD m q then m else updD m q (fallbackVal q))
        m1 (List.range' 1 tq)) ↔ q ∈ keysD m1 ∨ q ∈ List.range' 1 tq := by
      intro q
      exact fb_fold_keys (List.range' 1 tq) m1 q
    have hnd : (keysD (List.foldl
        (fun m q => if containsKeyD m q then m else updD m q (fallbackVal q))
        m1 (List.range' 1 tq))).Nodup := fb_fold_nodup (List.range' 1 tq) m1 hnd1
    have hset : (keysD (List.foldl
        (fun m q => if containsKeyD m q then m else updD m q (fallbackVal q))
        m1 (List.range' 1 tq))).toFinset = Finset.Icc 1 tq := by
      apply Finset.ext
      intro q
      rw [List.mem_toFinset, hkeys, Finset.mem_Icc]
      constructor
      · rintro (h | h)
        · exact hbound q h
        · have := List.mem_range'_1.mp h
          omega
      · intro h
        right
        rw [List.mem_range'_1]
        omega
    refine ⟨hset, ?_⟩
    rw [← hlen_keys, ← List.toFinset_card_of_nodup hnd, hset, Nat.card_Icc]
    omega
  · rename_i hge
    have hsub : (keysD m1).toFinset ⊆ Finset.Icc 1 tq := by
      intro q hq
      rw [List.mem_toFinset] at hq
      rw [Finset.mem_Icc]
      exact hbound q hq
    have hcard : (Finset.Icc 1 tq).card ≤ (keysD m1).toFinset.card := by
      rw [List.toFinset_card_of_nodup hnd1, hlen_keys, Nat.card_Icc]
      omega
    have hset := Finset.eq_of_subset_of_card_le hsub hcard
    refine ⟨hset, ?_⟩
    rw [← hlen_keys, ← List.toFinset_card_of_nodup hnd1, hset, Nat.card_Icc]
    omega

/-- C1 counterexample: a mark-band declaration covering question 7 with
`total_questions = 5` leaves a map with 6 entries whose key set contains 7,
refuting both parts of the claim. -/
theorem c1_counterexample :
    (parse_mark_scheme ["Q.7 - Q.7 Carry ONE mark Each"] 5).length ≠ 5 ∧
      7 ∈ keysD (parse_mark_scheme ["Q.7 - Q.7 Carry ONE mark Each"] 5) := by
  constructor
  · decide
  · decide

theorem c1_witness :
    (keysD (parse_mark_scheme ["Q.1 - Q.3 Carry TWO mark Each"] 5)).toFinset =
        Finset.Icc 1 5 ∧
      (parse_mark_scheme ["Q.1 - Q.3 Carry TWO mark Each"] 5).length = 5 :=
  c1_mark_scheme_keys ["Q.1 - Q.3 Carry TWO mark Each"] 5 (by decide)

/-! ## Claim C6: band recognition and last-write-wins assignment -/

theorem lookupD_range_fold (v : ℚ) :
    ∀ (n s : ℕ) (m : List (ℕ × ℚ)) (q : ℕ),
      lookupD ((List.range' s n).foldl (fun m q => updD m q v) m) q =
        if s ≤ q ∧ q < s + n then some v else lookupD m q := by
  intro n
  induction n with
  | zero =>
    intro s m q
    rw [if_neg (by omega)]
    rfl
  | succ n ih =>
    intro s m q
    have hr : List.range' s (n + 1) = s :: List.range' (s + 1) n := rfl
    rw [hr, List.foldl_cons, ih, lookupD_updD]
    by_cases h1 : s + 1 ≤ q ∧ q < s + 1 + n
    · rw [if_pos h1, if_pos (by omega)]
    · rw [if_neg h1]
      by_cases h2 : q = s
      · rw [if_pos h2, if_pos (by omega)]
      · rw [if_neg h2, if_neg (by omega)]

theorem lookupD_assignBand (m : List (ℕ × ℚ)) (b : ℕ × ℕ × String) (q : ℕ) :
    lookupD (assignBand m b) q =
      if coversQ q b then (bandVal b).getD 0 |> some else lookupD m q := by
  rw [assignBand]
  match hbv : _mark_word_to_value b.2.2 with
  | none =>
    have hc : coversQ q b = false := by
      simp [coversQ, bandVal, hbv]
    rw [hc]
    simp
  | some v =>
    rw [lookupD_range_fold]
    by_cases hin : b.1 ≤ q ∧ q ≤ b.2.1
    · have hc : coversQ q b = true := by
        simp [coversQ, bandVal, hbv, hin]
      rw [if_pos (by omega), hc, if_pos rfl]
      simp [bandVal, hbv]
    · have hc : coversQ q b = false := by
        simp [coversQ, bandVal, hbv]
        omega
      rw [if_neg (by omega), hc]
      simp

theorem find?_append_or {α : Type} (p : α → Bool) :
    ∀ (l1 l2 : List α), List.find? p (l1 ++ l2) =
      (List.find? p l1).or (List.find? p l2) :=
  fun _ _ => List.find?_append

theorem lookupD_bands_fold (q : ℕ) :
    ∀ (bs : List (ℕ × ℕ × String)) (m : List (ℕ × ℚ)),
      lookupD (bs.foldl assignBand m) q =
        match lastBandVal bs q with
        | some v => some v
        | none => lookupD m q := by
  intro bs
  induction bs with
  | nil => intro m; simp [lastBandVal]
  | cons b rest ih =>
    intro m
    have hstep : lastBandVal (b :: rest) q =
        ((List.find? (coversQ q) rest.reverse).or (List.find? (coversQ q) [b])).bind bandVal := by
      rw [lastBandVal, List.reverse_cons, find?_append_or]
    rw [List.foldl_cons, ih, hstep]
    match hfind : List.find? (coversQ q) rest.reverse with
    | some b0 =>
      have hlast : lastBandVal rest q = bandVal b0 := by
        rw [lastBandVal, hfind]
        rfl
      have hcov := List.find?_some hfind
      have hsome : (bandVal b0).isSome := by
        rw [coversQ, Bool.and_eq_true] at hcov
        exact hcov.1
      match hbv : bandVal b0 with
      | none =>
        rw [hbv] at hsome
        simp at hsome
      | some v =>
        simp [hlast, hbv]
    | none =>
      have hlast : lastBandVal rest q = none := by
        rw [lastBandVal, hfind]
        rfl
      rw [hlast, Option.none_or, lookupD_assignBand]
      match hcb : coversQ q b with
      | true =>
        have hsome : (bandVal b).isSome := by
          rw [coversQ, Bool.and_eq_true] at hcb
          exact hcb.1
        match hbv : bandVal b with
        | none =>
          rw [hbv] at hsome
          simp at hsome
        | some v =>
          simp [List.find?, hcb, hbv]
      | false =>
        simp [List.find?, hcb]

theorem fb_fold_pres (q : ℕ) (v : ℚ) :
    ∀ (L : List ℕ) (m : List (ℕ × ℚ)), lookupD m q = some v →
      lookupD (L.foldl
        (fun m q => if containsKeyD m q then m else updD m q (fallbackVal q)) m) q =
        some v := by
  intro L
  induction L with
  | nil => intro m hm; simpa using hm
  | cons x xs ih =>
    intro m hm
    rw [List.foldl_cons]
    refine ih _ ?_
    split
    · exact hm
    · rename_i hc
      rw [lookupD_updD, if_neg ?_]
      · exact hm
      · rintro rfl
        exact hc (by rw [containsKeyD, hm]; rfl)

/-- C6 (amended): the mark-band regex recognizes only the singular
"Carry ONE/TWO mark Each" form (the plural "marks" is not matched — see the
counterexample); for the matches it does find, in document/page order, the
value is assigned to every question of the inclusive range with later
matches overwriting earlier ones: the final value at any covered question
is the value of the last covering match. -/
theorem c6_band_assignment (pages : List String) (tq q : ℕ) (v : ℚ)
    (h : lastBandVal (allBands pages) q = some v) :
    lookupD (parse_mark_scheme pages tq) q = some v := by
  have hfold := parse_fold_eq pages
  have h1 : lookupD ((allBands pages).foldl assignBand []) q = some v := by
    rw [lookupD_bands_fold, h]
  rw [parse_mark_scheme, hfold]
  split
  · rw [applyFallback]
    exact fb_fold_pres q v (List.range' 1 tq) _ h1
  · exact h1

/-- C6 counterexample: the plural declaration "Q.1 - Q.2 Carry TWO marks
Each" is not recognized; question 1 receives the fallback value 1, not the
declared 2. -/
theorem c6_counterexample :
    findBands "Q.1 - Q.2 Carry TWO marks Each".data = [] ∧
      lookupD (parse_mark_scheme ["Q.1 - Q.2 Carry TWO marks Each"] 2) 1 = some 1 := by
  constructor
  · decide
  · decide

theorem c6_witness :
    lookupD (parse_mark_scheme ["Q.1 – Q.3 Carry ONE mark Each Q.2 – Q.3 Carry TWO mark Each"] 3)
        2 = some 2 :=
  c6_band_assignment ["Q.1 – Q.3 Carry ONE mark Each Q.2 – Q.3 Carry TWO mark Each"] 3 2 2
    (by decide)

/-! ## Claim C8: segmentation spans -/

theorem expectCI_length : ∀ (pat l r : List Char),
    expectCI pat l = some r → r.length + pat.length = l.length := by
  intro pat
  induction pat with
  | nil =>
    intro l r h
    rw [expectCI] at h
    obtain rfl := Option.some_injective _ h
    simp
  | cons p ps ih =>
    intro l r h
    match l with
    | [] => simp [expectCI] at h
    | c :: cs =>
      rw [expectCI] at h
      split at h
      · have := ih cs r h
        simp only [List.length_cons]
        omega
      · exact absurd h (by simp)

theorem skipWs_le (l : List Char) : (skipWs l).length ≤ l.length :=
  (List.dropWhile_sublist isWs).length_le

theorem takeDigits_le (l : List Char) (n : ℕ) (r : List Char)
    (h : takeDigits l = some (n, r)) : r.length ≤ l.length := by
  rw [takeDigits] at h
  split at h
  · exact absurd h (by simp)
  · obtain ⟨rfl, rfl⟩ := Prod.mk.injEq .. ▸ (Option.some_injective _ h)
    exact (List.dropWhile_sublist (fun c : Char => c.isDigit)).length_le

theorem matchQType_le (l r : List Char) (h : matchQType l = some r) :
    r.length ≤ l.length := by
  rw [matchQType] at h
  split at h
  · rename_i heq
    obtain rfl := Option.some_injective _ h
    have := expectCI_length _ _ _ heq
    omega
  · split at h
    · rename_i heq
      obtain rfl := Option.some_injective _ h
      have := expectCI_length _ _ _ heq
      omega
    · have := expectCI_length _ _ _ h
      omega

theorem matchStatusTail_le (l r : List Char) (h : matchStatusTail l = some r) :
    r.length ≤ l.length := by
  rw [matchStatusTail] at h
  split at h
  · rename_i heq
    obtain rfl := Option.some_injective _ h
    have := expectCI_length _ _ _ heq
    omega
  · split at h
    · rename_i heq
      obtain rfl := Option.some_injective _ h
      have := expectCI_length _ _ _ heq
      omega
    · split at h
      · rename_i heq
        obtain rfl := Option.some_injective _ h
        have := expectCI_length _ _ _ heq
        omega
      · have := expectCI_length _ _ _ h
        omega

theorem matchAnchorRest_lt (l r : List Char) (h : matchAnchorRest l = some r) :
    r.length < l.length := by
  rw [matchAnchorRest] at h
  simp only [bind, Option.bind_eq_some] at h
  obtain ⟨l1, h1, l2, h2, l3, h3, l4, h4, l5, h5, l6, h6, l7, h7, ⟨d, l8⟩, h8, l9, h9,
    l10, h10, h11⟩ := h
  have e1 := expectCI_length _ _ _ h1
  have e2 := expectCI_length _ _ _ h2
  have e3 := expectCI_length _ _ _ h3
  have e4 := matchQType_le _ _ h4
  have e5 := expectCI_length _ _ _ h5
  have e6 := expectCI_length _ _ _ h6
  have e7 := expectCI_length _ _ _ h7
  have e8 := takeDigits_le _ _ _ h8
  have e9 := expectCI_length _ _ _ h9
  have e10 := expectCI_length _ _ _ h10
  have e11 := matchStatusTail_le _ _ h11
  have s1 := skipWs_le l1
  have s2 := skipWs_le l2
  have s3 := skipWs_le l3
  have s4 := skipWs_le l4
  have s5 := skipWs_le l5
  have s6 := skipWs_le l6
  have s7 := skipWs_le l7
  have s8 := skipWs_le l8
  have s9 := skipWs_le l9
  have s10 := skipWs_le l10
  simp only [List.length_cons] at e1 e2 e3 e5 e6 e7 e9 e10
  omega

theorem chainOK_mono (cs : List Char) :
    ∀ (ms : List (ℕ × ℕ)) (p q : ℕ), p ≤ q → chainOK cs q ms → chainOK cs p ms := by
  intro ms p q hpq h
  match ms with
  | [] => trivial
  | (s, e) :: rest =>
    obtain ⟨hqs, hrest⟩ := h
    exact ⟨le_trans hpq hqs, hrest⟩

theorem findAnchorsFrom_chain (cs : List Char) :
    ∀ (fuel pos : ℕ), chainOK cs pos (findAnchorsFrom cs fuel pos) := by
  intro fuel
  induction fuel with
  | zero =>
    intro pos
    rw [findAnchorsFrom]
    trivial
  | succ fuel ih =>
    intro pos
    rw [findAnchorsFrom]
    split
    · rename_i rest hmatch
      have hlt := matchAnchorRest_lt _ _ hmatch
      have hdl : (cs.drop pos).length = cs.length - pos := List.length_drop pos cs
      have hk1 : 1 ≤ (cs.drop pos).length - rest.length := by omega
      have hposle : pos < cs.length := by omega
      refine ⟨le_refl pos, by omega, by omega, ?_⟩
      have hmax : max ((cs.drop pos).length - rest.length) 1 =
          (cs.drop pos).length - rest.length := by omega
      rw [hmax]
      exact ih _
    · exact chainOK_mono cs _ pos (pos + 1) (by omega) (ih (pos + 1))

theorem pySlice_append (cs : List Char) (a b c : ℕ) (h1 : a ≤ b) (h2 : b ≤ c) :
    pySlice cs a b ++ pySlice cs b c = pySlice cs a c := by
  rw [pySlice, pySlice, pySlice]
  have hd : cs.drop b = (cs.drop a).drop (b - a) := by
    rw [List.drop_drop]
    congr 1
    omega
  rw [hd]
  have hsum : c - a = (b - a) + (c - b) := by omega
  rw [hsum, List.take_add]

theorem pySlice_zero_len (cs : List Char) : pySlice cs 0 cs.length = cs := by
  rw [pySlice]
  simp

theorem metaSpans_join (cs : List Char) :
    ∀ (ms : List (ℕ × ℕ)) (s e p : ℕ), chainOK cs p ((s, e) :: ms) →
      (metaSpans cs ((s, e) :: ms)).flatten = pySlice cs s cs.length := by
  intro ms
  induction ms with
  | nil =>
    intro s e p _
    rw [metaSpans, metaSpans]
    simp
  | cons b rest ih =>
    intro s e p h
    obtain ⟨hps, hse, hel, hrest⟩ := h
    obtain ⟨s2, e2⟩ := b
    obtain ⟨hes2, hs2e2, he2l, hrest2⟩ := hrest
    rw [metaSpans, List.flatten_cons, ih s2 e2 e ⟨hes2, hs2e2, he2l, hrest2⟩,
      pySlice_append cs s s2 cs.length (by omega) (by omega)]

/-- C8 (amended): in the segmenter's span computation, the concatenation of
the FIRST anchor's content span with every anchor's metadata span, in
order, reconstructs the flattened text exactly.  The original round-trip
claim fails: the text between one anchor's end and the next anchor's start
belongs to both the earlier anchor's metadata span and the later anchor's
content span, so interleaving all content and metadata spans duplicates it
(see the counterexample). -/
theorem c8_segmentation_reconstruction (cs : List Char) (m0 : ℕ × ℕ)
    (rest : List (ℕ × ℕ)) (h : findAnchors cs = m0 :: rest) :
    pySlice cs 0 m0.1 ++ (metaSpans cs (m0 :: rest)).flatten = cs := by
  have hchain : chainOK cs 0 (findAnchors cs) := findAnchorsFrom_chain cs (cs.length + 1) 0
  rw [h] at hchain
  obtain ⟨s, e⟩ := m0
  obtain ⟨h0s, hse, hel, hrest2⟩ := hchain
  rw [metaSpans_join cs rest s e 0 ⟨h0s, hse, hel, hrest2⟩]
  rw [pySlice_append cs 0 s cs.length (by omega) (by omega), pySlice_zero_len]

/-- C8 counterexample: on a document with two anchors separated by content,
interleaving every anchor's content span and metadata span does not
reconstruct the text (the inter-anchor material is emitted twice). -/
theorem c8_counterexample :
    1 ≤ (findAnchors c8doc.data).length ∧
      segJoin c8doc.data (findAnchors c8doc.data) ≠ c8doc.data := by
  constructor
  · decide
  · decide

theorem c8_witness :
    pySlice c8doc.data 0 2 ++ (metaSpans c8doc.data ((2, 55) :: [(58, 111)])).flatten =
      c8doc.data :=
  c8_segmentation_reconstruction c8doc.data (2, 55) [(58, 111)] (by decide)
